import Mathlib

/-!
Shallow embedding of the OpenManus planning-flow state machine
(`app/flow/planning.py`, `app/flow/base.py`) and the deep-research tool
(`app/tool/deep_research.py`).

External collaborators (the LLM completion service, web search, the agents'
`run` methods) are modelled as oracles: explicit parameters that decide the
outcome of each boundary call.  The Planning Tool's own command handler
(`app/tool/planning.py`) is not part of the provided sources; where its
behaviour matters it is modelled from the spec's Planning Tool command
contract and marked as such.

Python dicts are modelled as insertion-ordered association lists (updating an
existing key rewrites it in place, a new key is appended); `str(i)` keys of
`step_status` are modelled as the `Nat` index itself.
-/

namespace OpenManus

/-- Step status values of the plan state machine
(`not_started`, `in_progress`, `completed`, `blocked`). -/
inductive StepStatus where
  | notStarted
  | inProgress
  | completed
  | blocked
deriving DecidableEq, Repr

/-- The `step_status` dict: an insertion-ordered association list from step
index to status. -/
abbrev StatusMap : Type := List (Nat × StepStatus)

/-- `str(i) in step_status` — dict key membership. -/
def containsStatusKey : StatusMap → Nat → Bool
  | [], _ => false
  | q :: tl, i => q.1 = i || containsStatusKey tl i

/-- `step_status.get(str(i))` — dict lookup. -/
def lookupStatus : StatusMap → Nat → Option StepStatus
  | [], _ => none
  | q :: tl, i => if q.1 = i then some q.2 else lookupStatus tl i

/-- `step_status[str(i)] = s` — dict update: rewrite an existing key in
place, append a fresh key. -/
def setStatus (m : StatusMap) (i : Nat) (s : StepStatus) : StatusMap :=
  if containsStatusKey m i then
    List.map (fun q => if q.1 = i then (i, s) else q) m
  else
    m ++ [(i, s)]

/-- A plan record as stored in `planning_tool._plans[plan_id]`:
`title`, `description`, `steps`, `step_status`, `created_at`, `updated_at`.
Timestamps are abstract `Nat` clock values. -/
structure Plan where
  title : String
  description : String
  steps : List String
  stepStatus : StatusMap
  createdAt : Nat
  updatedAt : Nat
deriving DecidableEq, Repr

/-- `step_status.get(str(i), "not_started")` — the status of step `i`,
defaulting to `not_started` when the dict has no entry for `i`. -/
def statusOf (p : Plan) (i : Nat) : StepStatus :=
  (lookupStatus p.stepStatus i).getD .notStarted

/-- `status in ["not_started", "in_progress"]` — the eligibility test of the
step-selection scan. -/
def isActive (p : Plan) (i : Nat) : Bool :=
  statusOf p i = StepStatus.notStarted ∨ statusOf p i = StepStatus.inProgress

/-- The scan `for i, step in enumerate(steps): if status in [...]` — the
lowest index of an eligible step, if any. -/
def findFirstActive (p : Plan) : Option Nat :=
  (List.range p.steps.length).find? (fun i => isActive p i)

/-- `planning_tool._plans` — the plan store, a dict from plan id to plan. -/
abbrev PlanStore : Type := List (String × Plan)

/-- `_plans[pid]` / `pid in _plans` — dict lookup by plan id. -/
def lookupPlan : PlanStore → String → Option Plan
  | [], _ => none
  | q :: tl, pid => if q.1 = pid then some q.2 else lookupPlan tl pid

/-- `pid in _plans` — dict key membership. -/
def containsPlanKey : PlanStore → String → Bool
  | [], _ => false
  | q :: tl, pid => q.1 = pid || containsPlanKey tl pid

/-- `_plans[pid] = p` — dict update by plan id. -/
def insertPlan (store : PlanStore) (pid : String) (p : Plan) : PlanStore :=
  if containsPlanKey store pid then
    List.map (fun q => if q.1 = pid then (pid, p) else q) store
  else
    store ++ [(pid, p)]

/-- `request[:50] + ('...' if len(request) > 50 else '')` — the truncated
request used in plan titles. -/
def truncateReq (r : String) : String :=
  if r.length > 50 then (r.toList.take 50).asString ++ "..." else r

/-- The empty plan `_create_initial_plan` writes into the store before
invoking the planner agent. -/
def emptyPlanFor (request : String) (t : Nat) : Plan :=
  { title := "Plan for: " ++ truncateReq request
  , description := "Auto-generated plan for request: " ++ request
  , steps := []
  , stepStatus := []
  , createdAt := t
  , updatedAt := t }

/-- Modelled from the spec: the Planning Tool's `create(plan_id, title,
description, steps)` command — `app/tool/planning.py` is not among the
provided sources, only its callers are.  Per the spec's Planning Tool
command contract and data model, `create` stores the given steps with every
index `not_started`. -/
def planningToolCreate (store : PlanStore) (pid title desc : String)
    (steps : List String) (t : Nat) : PlanStore :=
  insertPlan store pid
    { title := title
    , description := desc
    , steps := steps
    , stepStatus := (List.range steps.length).map (fun i => (i, .notStarted))
    , createdAt := t
    , updatedAt := t }

/-- Modelled from the spec: the Planning Tool's `mark_step(plan_id,
step_index, status)` command — `app/tool/planning.py` is not among the
provided sources.  Per the spec it sets the status of the given step index
of the stored plan. -/
def planningToolMarkStep (p : Plan) (i : Nat) (s : StepStatus) (t : Nat) : Plan :=
  { p with stepStatus := setStatus p.stepStatus i s, updatedAt := t }

/-- The flow's direct-mutation fallback when a `mark_step` call fails:
`step_status[str(i)] = status; plan_data["updated_at"] = time.time()`. -/
def directMarkStep (p : Plan) (i : Nat) (s : StepStatus) (t : Nat) : Plan :=
  { p with stepStatus := setStatus p.stepStatus i s, updatedAt := t }

/-- The three generic steps of the deterministic default plan. -/
def defaultPlanSteps : List String :=
  ["Analyze request", "Execute task", "Verify results"]

/-- `_create_default_plan`: try the Planning Tool's `create`; if that call
throws (`createFails`), write the emergency plan directly into storage. -/
def createDefaultPlan (createFails : Bool) (store : PlanStore)
    (pid request : String) (t : Nat) : PlanStore :=
  if createFails then
    insertPlan store pid
      { title := "Emergency Plan for: " ++ truncateReq request
      , description := "Emergency auto-generated plan for request: " ++ request
      , steps := defaultPlanSteps
      , stepStatus := [(0, .notStarted), (1, .notStarted), (2, .notStarted)]
      , createdAt := t
      , updatedAt := t }
  else
    planningToolCreate store pid ("Plan for: " ++ truncateReq request)
      ("Auto-generated plan for request: " ++ request) defaultPlanSteps t

/-- `_create_initial_plan`: pre-create an empty plan under the active plan
id, then run the planner agent (its effect on the store is the oracle
`agentEffect`, and `agentThrows` is whether `agent.run` raised); if the
agent threw, or afterwards the plan is missing or has empty `steps`, fall
back to `_create_default_plan`. -/
def createInitialPlan (agentThrows : Bool) (agentEffect : PlanStore → PlanStore)
    (createFails : Bool) (store : PlanStore) (pid request : String) (t : Nat) :
    PlanStore :=
  let store1 := insertPlan store pid (emptyPlanFor request t)
  if agentThrows then
    createDefaultPlan createFails store1 pid request t
  else
    let store2 := agentEffect store1
    match lookupPlan store2 pid with
    | none => createDefaultPlan createFails store2 pid request t
    | some p =>
        if p.steps = [] then createDefaultPlan createFails store2 pid request t
        else store2

/-! ### Step-type extraction (`re.search(r"\[([A-Z_]+)\]", step)`) -/

/-- A character of the regex class `[A-Z_]`. -/
def isTagChar (c : Char) : Bool :=
  ('A' ≤ c && c ≤ 'Z') || c = '_'

/-- Whether the regex `\[([A-Z_]+)\]` matches at the head of `cs`, and the
captured group if so.  Since `]` is not in `[A-Z_]`, the greedy match needs
no backtracking: the maximal `[A-Z_]` run must be nonempty and immediately
followed by `]`. -/
def tagMatchHere (cs : List Char) : Option (List Char) :=
  match cs with
  | [] => none
  | c :: rest =>
      if c = '[' then
        let run := rest.takeWhile isTagChar
        if run.isEmpty then none
        else
          match rest.drop run.length with
          | ']' :: _ => some run
          | _ => none
      else none

/-- `re.search`: try the pattern at each position from the left; the first
position that matches wins. -/
def findTag : List Char → Option (List Char)
  | [] => none
  | c :: rest =>
      match tagMatchHere (c :: rest) with
      | some run => some run
      | none => findTag rest

/-- `type_match.group(1).lower()` — the captured tag, lowercased. -/
def lowerTag (run : List Char) : String :=
  String.mk (List.map Char.toLower run)

/-- The `step_info["type"]` hint extracted from a step's text by
`_get_current_step_info`. -/
def stepTypeOf (text : String) : Option String :=
  (findTag text.toList).map lowerTag

/-- Modelled from the spec: the spec's wording parses the hint as "a
bracketed tag at the start of the step text"; this definition follows those
words (match only at position 0), to be compared with `stepTypeOf`, which
follows the source. -/
def stepTypeAtStartSpec (text : String) : Option String :=
  (tagMatchHere text.toList).map lowerTag

/-! ### Agent registry and executor selection (`BaseFlow`, `get_executor`) -/

/-- The flow's agent configuration: `self.agents` (insertion-ordered keys),
the `primary_agent` kwarg, and `executor_keys` (the `executors` kwarg,
defaulting to `list(self.agents.keys())`). -/
structure FlowConfig where
  agentKeys : List String
  primaryKeyArg : Option String
  executorKeys : List String
deriving Repr

/-- `BaseFlow.__init__`: `primary_agent_key` is the kwarg if truthy,
otherwise the first agent key (when any agent exists). -/
def primaryAgentKey (cfg : FlowConfig) : Option String :=
  match cfg.primaryKeyArg with
  | some k => if k = "" then cfg.agentKeys.head? else some k
  | none => cfg.agentKeys.head?

/-- `BaseFlow.primary_agent`: `self.agents.get(self.primary_agent_key)` —
the key resolves only if it is actually registered. -/
def primaryAgent (cfg : FlowConfig) : Option String :=
  (primaryAgentKey cfg).bind
    (fun k => if k ∈ cfg.agentKeys then some k else none)

/-- The `for key in self.executor_keys` fallback of `get_executor`, ending
at `self.primary_agent`. -/
def defaultExecutor (cfg : FlowConfig) : Option String :=
  match List.find? (fun k => decide (k ∈ cfg.agentKeys)) cfg.executorKeys with
  | some k => some k
  | none => primaryAgent cfg

/-- `get_executor(step_type)`: a truthy `step_type` that is a registered
agent key selects that agent; otherwise the first executor key registered
among the agents; otherwise the primary agent. -/
def getExecutor (cfg : FlowConfig) (stepTy : Option String) : Option String :=
  match stepTy with
  | some t =>
      if t ≠ "" ∧ t ∈ cfg.agentKeys then some t else defaultExecutor cfg
  | none => defaultExecutor cfg

/-! ### The step loop (`execute`, `_get_current_step_info`,
`_execute_step`, `_mark_step_completed`) -/

/-- The `step_info` dict built for the selected step: its text and the
optional `type` hint. -/
structure StepInfo where
  text : String
  type : Option String
deriving DecidableEq, Repr

/-- `_get_current_step_info`, per plan: select the lowest-index eligible
step, build its info, and mark it `in_progress` — through the tool when the
`mark_step` call succeeds, by direct mutation when it throws (`markFails`).
Returns `(none, p)` untouched when no eligible step exists. -/
def getCurrentStepInfo (markFails : Bool) (p : Plan) (t : Nat) :
    Option (Nat × StepInfo) × Plan :=
  match findFirstActive p with
  | none => (none, p)
  | some i =>
      let text := p.steps.getD i ""
      let info : StepInfo := { text := text, type := stepTypeOf text }
      let p' :=
        if markFails then directMarkStep p i .inProgress t
        else planningToolMarkStep p i .inProgress t
      (some (i, info), p')

/-- `_mark_step_completed`, per plan: no-op when `current_step_index` is
`None`; otherwise mark it `completed` through the tool, or by direct
mutation when the tool call throws (`markFails`). -/
def markStepCompletedPlan (markFails : Bool) (idx : Option Nat) (p : Plan)
    (t : Nat) : Plan :=
  match idx with
  | none => p
  | some i =>
      if markFails then directMarkStep p i .completed t
      else planningToolMarkStep p i .completed t

/-- `_execute_step`, per plan, at the current step index `i`: the executor's
`run` outcome is the oracle `runResult`.  On success the step is marked
`completed` and the run output returned; on a thrown fault the plan is left
untouched and the error-annotated result string is returned. -/
def executeStep (runResult : Except String String) (markFails : Bool)
    (i : Nat) (p : Plan) (t : Nat) : String × Plan :=
  match runResult with
  | .ok out => (out, markStepCompletedPlan markFails (some i) p t)
  | .error e => ("Error executing step " ++ toString i ++ ": " ++ e, p)

/-- The `while True` loop of `execute` under the assumption that every
selected step's execution succeeds: select, mark `in_progress`, run
(success), mark `completed`, then break if the executor reached `FINISHED`
(oracle `fin`), else repeat.  The other oracles give, per iteration `k`,
whether each `mark_step` call fails and the clock value.  The first
component counts step selections; recursion is on explicit fuel since the
Python loop is `while True`. -/
def runStepLoop (markInProg markCompl fin : Nat → Bool) (clock : Nat → Nat) :
    Nat → Nat → Plan → Nat × Plan
  | 0, _, p => (0, p)
  | fuel + 1, k, p =>
      match findFirstActive p with
      | none => (0, p)
      | some i =>
          let p1 :=
            if markInProg k then directMarkStep p i .inProgress (clock k)
            else planningToolMarkStep p i .inProgress (clock k)
          let p2 := markStepCompletedPlan (markCompl k) (some i) p1 (clock k)
          if fin k then (1, p2)
          else
            let r :=
              runStepLoop markInProg markCompl fin clock fuel (k + 1) p2
            (r.1 + 1, r.2)

/-- The number of eligible (`not_started` or `in_progress`) steps of a
plan. -/
def activeCount (p : Plan) : Nat :=
  (List.filter (fun i => isActive p i) (List.range p.steps.length)).length

/-- How one pass of `execute`'s `while True` body ends: break to
`_finalize_plan`, break because the executor reached `FINISHED`, or go
round again. -/
inductive LoopSignal where
  | finalize
  | finishedEarly
  | continueLoop
deriving DecidableEq, Repr

/-- One pass of `execute`'s loop body: select and mark the current step
(`_get_current_step_info`), run it (`_execute_step`, outcome `runResult`),
then the `FINISHED` check.  Yields the loop signal, the step's result text
and the resulting plan. -/
def loopBody (selMarkFails : Bool) (runResult : Except String String)
    (complMarkFails : Bool) (executorFinished : Bool) (p : Plan) (t : Nat) :
    LoopSignal × String × Plan :=
  match getCurrentStepInfo selMarkFails p t with
  | (none, p') => (.finalize, "", p')
  | (some (i, _info), p') =>
      let r := executeStep runResult complMarkFails i p' t
      if executorFinished then (.finishedEarly, r.1, r.2)
      else (.continueLoop, r.1, r.2)

/-! ### The fatal-error guard of `execute` -/

/-- The body of `execute`'s `try`: `raise ValueError("No primary agent
available")` when no primary agent resolves; otherwise the rest of the flow
(abstracted as `body`, reached only in that case). -/
def executeRaw (cfg : FlowConfig) (body : String) : Except String String :=
  if (primaryAgent cfg).isNone then Except.error "No primary agent available"
  else Except.ok body

/-- `execute` with its `except Exception` wrapper: a raised fault is caught
and returned as a labelled failure string, never propagated. -/
def executeFlow (cfg : FlowConfig) (body : String) : String :=
  match executeRaw cfg body with
  | .ok r => r
  | .error e => "Execution failed: " ++ e

/-! ### Plan-text rendering (`_generate_plan_text_from_storage`) -/

/-- One bucket of the `status_counts` tally, taken over
`step_status.values()`. -/
def countStatus (m : StatusMap) (s : StepStatus) : Nat :=
  (List.filter (fun q => q.2 = s) m).length

/-- The `(completed / total) * 100` percentage in tenths, `0` when `total`
is zero.  Python formats a binary float with `%.1f`; here the rounding to
one decimal is exact rational rounding with ties to even, which coincides
with the float result for all realistic counts. -/
def percentTenths (completed total : Nat) : Nat :=
  if total = 0 then 0
  else
    let num := completed * 1000
    let q := num / total
    let r := num % total
    if total < 2 * r then q + 1
    else if 2 * r < total then q
    else if q % 2 = 0 then q else q + 1

/-- `f"{progress:.1f}"` — the percentage rendered with one decimal. -/
def formatPercent1 (completed total : Nat) : String :=
  let t := percentTenths completed total
  toString (t / 10) ++ "." ++ toString (t % 10)

/-- The per-step status glyph. -/
def statusMark : StepStatus → String
  | .completed => "[✓]"
  | .inProgress => "[→]"
  | .blocked => "[!]"
  | .notStarted => "[ ]"

/-- `_generate_plan_text_from_storage` (its `try` body; nothing in it can
throw): header with an `=` underline as long as the first line, optional
description block, progress and status lines from the `status_counts`
tally, then one glyph-annotated line per step. -/
def renderPlanFromStorage (pid : String) (p : Plan) : String :=
  let completed := countStatus p.stepStatus .completed
  let inProg := countStatus p.stepStatus .inProgress
  let blocked := countStatus p.stepStatus .blocked
  let notStarted := countStatus p.stepStatus .notStarted
  let total := p.steps.length
  let line1 := "Plan: " ++ p.title ++ " (ID: " ++ pid ++ ")\n"
  let header := line1 ++ String.mk (List.replicate line1.length '=') ++ "\n\n"
  let descPart := if p.description ≠ "" then p.description ++ "\n\n" else ""
  let progressLine :=
    "Progress: " ++ toString completed ++ "/" ++ toString total
      ++ " steps completed (" ++ formatPercent1 completed total ++ "%)\n"
  let statusLine :=
    "Status: " ++ toString completed ++ " completed, "
      ++ toString inProg ++ " in progress, "
      ++ toString blocked ++ " blocked, "
      ++ toString notStarted ++ " not started\n\n"
  let stepLines :=
    String.join ((List.range p.steps.length).map (fun i =>
      toString i ++ ". " ++ statusMark (statusOf p i) ++ " "
        ++ p.steps.getD i "" ++ "\n"))
  header ++ descPart ++ progressLine ++ statusLine ++ "Steps:\n" ++ stepLines

/-! ### Deep research (`app/tool/deep_research.py`)

`asyncio.gather` of the child coroutines runs them on one event loop; their
effects on the shared `ResearchContext` are serialized at await points, so
the gather is modelled as a sequential fold of the children over the
context.  `time.time()` is modelled as a logical clock in the context that
the environment advances at each awaited phase. -/

/-- The mutable `ResearchContext` shared by all research cycles. -/
structure RContext where
  query : String
  insights : List String
  followUpQueries : List String
  visitedUrls : List String
  currentDepth : Nat
  maxDepth : Nat
  now : Nat
deriving DecidableEq, Repr

/-- Oracles for the external collaborators of one research cycle: the web
search, the LLM's insight extraction and follow-up generation, and the time
each awaited phase consumes. -/
structure REnv where
  optimizeQuery : String → String
  searchResults : String → Nat → List String
  newInsights : String → List String
  followUps : String → List String
  searchElapsed : String → Nat
  extractElapsed : String → Nat
  followElapsed : String → Nat

/-- The task-creation loop over `follow_up_queries[:2]`: `break` before each
child when the deadline has passed (no awaits occur inside the loop, so one
clock reading governs it). -/
def dispatchList (fus : List String) (now deadline : Nat) : List String :=
  if deadline ≤ now then [] else fus.take 2

/-- `_research_graph` on explicit fuel (the Python recursion carries no
fuel; `researchGraphFuel_fuel_irrel` shows fuel beyond
`max_depth - current_depth` is never consumed).  One cycle: the deadline /
depth guard, web search, insight extraction, follow-up generation, the
shared depth increment, then the fan-out over at most two follow-ups with
reduced `results_count`. -/
def researchGraphFuel (env : REnv) (deadline : Nat) :
    Nat → RContext → String → Nat → RContext
  | 0, ctx, _, _ => ctx
  | fuel + 1, ctx, q, rc =>
      if deadline ≤ ctx.now ∨ ctx.maxDepth ≤ ctx.currentDepth then ctx
      else
        let results := env.searchResults q rc
        let ctx0 := { ctx with now := ctx.now + env.searchElapsed q }
        if results.isEmpty then ctx0
        else
          let ins := env.newInsights q
          let ctx1 :=
            { ctx0 with
              insights := ctx0.insights ++ ins
              visitedUrls := ctx0.visitedUrls ++ results
              now := ctx0.now + env.extractElapsed q }
          if ins.isEmpty then ctx1
          else
            let fus := (env.followUps q).take 3
            let ctx2 :=
              { ctx1 with
                followUpQueries := ctx1.followUpQueries ++ fus
                now := ctx1.now + env.followElapsed q }
            let ctx3 := { ctx2 with currentDepth := ctx2.currentDepth + 1 }
            if fus ≠ [] ∧ ctx3.currentDepth < ctx3.maxDepth then
              List.foldl
                (fun c q2 =>
                  researchGraphFuel env deadline fuel c q2 (max 1 (rc - 1)))
                ctx3 (dispatchList fus ctx3.now deadline)
            else ctx3

/-- `max_depth = max(1, min(max_depth, 5))` — the clamp in
`DeepResearch.execute`. -/
def normalizeMaxDepth (md : Nat) : Nat := max 1 (min md 5)

/-- `DeepResearch.execute` up to the research phase: clamp the parameters,
build the context, set the deadline, optimize the query, and run the
research graph (with fuel `maxDepth`, which suffices). -/
def deepResearchExecute (env : REnv) (query : String)
    (md rps timeLimit startTime : Nat) : RContext :=
  let maxDepth := normalizeMaxDepth md
  let rc := max 1 (min rps 20)
  let ctx : RContext :=
    { query := query, insights := [], followUpQueries := []
    , visitedUrls := [], currentDepth := 0, maxDepth := maxDepth
    , now := startTime }
  let deadline := startTime + timeLimit
  researchGraphFuel env deadline maxDepth ctx (env.optimizeQuery query) rc

/-! ## Lemmas about the status dict -/

theorem lookupStatus_map_set (m : StatusMap) (i j : Nat) (s : StepStatus) :
    lookupStatus (List.map (fun q => if q.1 = i then (i, s) else q) m) j =
      if j = i then (if containsStatusKey m i then some s else none)
      else lookupStatus m j := by
  induction m with
  | nil => simp [lookupStatus, containsStatusKey]
  | cons a tl ih =>
      by_cases hj : j = i
      · subst hj
        by_cases ha : a.1 = j <;>
          simp [lookupStatus, containsStatusKey, ha, ih]
      · have hij : ¬i = j := fun h => hj h.symm
        by_cases ha : a.1 = i <;>
          simp [lookupStatus, containsStatusKey, ha, hj, hij, ih]

theorem lookupStatus_append_end (m : StatusMap) (i j : Nat) (s : StepStatus)
    (h : containsStatusKey m i = false) :
    lookupStatus (m ++ [(i, s)]) j =
      if j = i then some s else lookupStatus m j := by
  induction m with
  | nil =>
      by_cases hj : j = i
      · subst hj; simp [lookupStatus]
      · have hij : ¬i = j := fun h => hj h.symm
        simp [lookupStatus, hj, hij]
  | cons a tl ih =>
      simp only [containsStatusKey, Bool.or_eq_false_iff,
        decide_eq_false_iff_not] at h
      by_cases hj : j = i
      · subst hj
        simp [lookupStatus, h.1, ih h.2]
      · simp [lookupStatus, hj, ih h.2]

theorem lookupStatus_setStatus (m : StatusMap) (i j : Nat) (s : StepStatus) :
    lookupStatus (setStatus m i s) j =
      if j = i then some s else lookupStatus m j := by
  unfold setStatus
  by_cases hc : containsStatusKey m i = true
  · simp [hc, lookupStatus_map_set m i j s]
  · have hc' : containsStatusKey m i = false := by simpa using hc
    simp [hc', lookupStatus_append_end m i j s hc']

theorem statusOf_planningToolMarkStep (p : Plan) (i j : Nat) (s : StepStatus)
    (t : Nat) :
    statusOf (planningToolMarkStep p i s t) j =
      if j = i then s else statusOf p j := by
  unfold statusOf planningToolMarkStep
  by_cases hj : j = i <;> simp [lookupStatus_setStatus, hj]

theorem directMarkStep_eq_toolMarkStep :
    directMarkStep = planningToolMarkStep := rfl

theorem steps_planningToolMarkStep (p : Plan) (i : Nat) (s : StepStatus)
    (t : Nat) : (planningToolMarkStep p i s t).steps = p.steps := rfl

/-! ## Lemmas about the step-selection scan -/

theorem find?_range_eq_some {pred : Nat → Bool} :
    ∀ {n i : Nat}, (List.range n).find? pred = some i →
      pred i = true ∧ i < n ∧ ∀ j, j < i → pred j = false := by
  intro n
  induction n with
  | zero => intro i h; simp [List.range_zero] at h
  | succ n ih =>
      intro i h
      rw [List.range_succ, List.find?_append] at h
      cases hfind : (List.range n).find? pred with
      | some k =>
          rw [hfind, Option.or_some] at h
          cases h
          have := ih hfind
          exact ⟨this.1, Nat.lt_succ_of_lt this.2.1, this.2.2⟩
      | none =>
          rw [hfind, Option.none_or] at h
          by_cases hp : pred n = true
          · rw [List.find?_cons_of_pos _ hp] at h
            cases h
            refine ⟨hp, Nat.lt_succ_self n, ?_⟩
            intro j hj
            have := List.find?_eq_none.mp hfind j (List.mem_range.mpr hj)
            simpa using this
          · rw [List.find?_cons_of_neg _ (by simpa using hp)] at h
            simp at h

theorem find?_range_eq_none {pred : Nat → Bool} {n : Nat}
    (h : (List.range n).find? pred = none) :
    ∀ j, j < n → pred j = false := by
  intro j hj
  have := List.find?_eq_none.mp h j (List.mem_range.mpr hj)
  simpa using this

theorem find?_range_none_of {pred : Nat → Bool} {n : Nat}
    (h : ∀ j, j < n → pred j = false) :
    (List.range n).find? pred = none := by
  apply List.find?_eq_none.mpr
  intro j hj
  simp [h j (List.mem_range.mp hj)]

theorem findFirstActive_spec {p : Plan} {i : Nat}
    (h : findFirstActive p = some i) :
    isActive p i = true ∧ i < p.steps.length ∧
      ∀ j, j < i → isActive p j = false :=
  find?_range_eq_some h

theorem findFirstActive_none_spec {p : Plan} (h : findFirstActive p = none) :
    ∀ j, j < p.steps.length → isActive p j = false :=
  find?_range_eq_none h

theorem findFirstActive_eq_none_of {p : Plan}
    (h : ∀ j, j < p.steps.length → isActive p j = false) :
    findFirstActive p = none :=
  find?_range_none_of h

/-! ## Lemmas about the plan store -/

theorem lookupPlan_map_set (store : PlanStore) (pid : String) (p : Plan) :
    lookupPlan (List.map (fun q => if q.1 = pid then (pid, p) else q) store)
        pid =
      if containsPlanKey store pid then some p else none := by
  induction store with
  | nil => simp [lookupPlan, containsPlanKey]
  | cons a tl ih =>
      by_cases ha : a.1 = pid <;>
        simp [lookupPlan, containsPlanKey, ha, ih]

theorem lookupPlan_append_end (store : PlanStore) (pid : String) (p : Plan)
    (h : containsPlanKey store pid = false) :
    lookupPlan (store ++ [(pid, p)]) pid = some p := by
  induction store with
  | nil => simp [lookupPlan]
  | cons a tl ih =>
      simp only [containsPlanKey, Bool.or_eq_false_iff,
        decide_eq_false_iff_not] at h
      simp [lookupPlan, h.1, ih h.2]

theorem lookupPlan_insertPlan_self (store : PlanStore) (pid : String)
    (p : Plan) : lookupPlan (insertPlan store pid p) pid = some p := by
  unfold insertPlan
  by_cases hc : containsPlanKey store pid = true
  · simp [hc, lookupPlan_map_set]
  · have hc' : containsPlanKey store pid = false := by simpa using hc
    simp [hc', lookupPlan_append_end store pid p hc']

theorem containsPlanKey_of_lookup {store : PlanStore} {pid : String}
    {p : Plan} (h : lookupPlan store pid = some p) :
    containsPlanKey store pid = true := by
  induction store with
  | nil => simp [lookupPlan] at h
  | cons a tl ih =>
      by_cases ha : a.1 = pid
      · simp [containsPlanKey, ha]
      · simp only [lookupPlan, if_neg ha] at h
        simp [containsPlanKey, ha, ih h]

/-! ## Lemmas about the step loop -/

theorem filter_range_length_update {n i : Nat} {f g : Nat → Bool}
    (hi : i < n) (hf : f i = true) (hg : g i = false)
    (same : ∀ j, j < n → j ≠ i → g j = f j) :
    ((List.range n).filter g).length + 1 = ((List.range n).filter f).length := by
  induction n with
  | zero => exact absurd hi (Nat.not_lt_zero i)
  | succ n ih =>
      rw [List.range_succ, List.filter_append, List.filter_append]
      by_cases hin : i = n
      · subst hin
        have hcongr : (List.range i).filter g = (List.range i).filter f := by
          apply List.filter_congr
          intro j hj
          exact same j (Nat.lt_succ_of_lt (List.mem_range.mp hj))
            (Nat.ne_of_lt (List.mem_range.mp hj))
        rw [hcongr]
        simp [List.filter, hf, hg]
      · have hi' : i < n := by omega
        have hgn : g n = f n := same n (Nat.lt_succ_self n) (fun h => hin h.symm)
        have ihh := ih hi' (fun j hj hne => same j (Nat.lt_succ_of_lt hj) hne)
        have hsing : (List.filter g [n]).length = (List.filter f [n]).length := by
          simp [List.filter, hgn]
        simp only [List.length_append]
        omega

/-- The end state of one successful loop iteration: the selected step `i`
marked `in_progress` then `completed`, regardless of which of the two
marking paths each call took. -/
theorem statusOf_successIteration (b1 b2 : Bool) (p : Plan) (i j : Nat)
    (t1 t2 : Nat) :
    statusOf
        (markStepCompletedPlan b2 (some i)
          (if b1 then directMarkStep p i .inProgress t1
           else planningToolMarkStep p i .inProgress t1) t2) j =
      if j = i then .completed else statusOf p j := by
  cases b1 <;> cases b2 <;>
    simp [markStepCompletedPlan, directMarkStep_eq_toolMarkStep,
      statusOf_planningToolMarkStep] <;>
    by_cases hj : j = i <;> simp [hj]

theorem steps_successIteration (b1 b2 : Bool) (p : Plan) (i : Nat)
    (t1 t2 : Nat) :
    (markStepCompletedPlan b2 (some i)
        (if b1 then directMarkStep p i .inProgress t1
         else planningToolMarkStep p i .inProgress t1) t2).steps =
      p.steps := by
  cases b1 <;> cases b2 <;>
    simp [markStepCompletedPlan, directMarkStep_eq_toolMarkStep,
      steps_planningToolMarkStep]

theorem activeCount_eq_zero_of_none {p : Plan} (h : findFirstActive p = none) :
    activeCount p = 0 := by
  unfold activeCount
  rw [List.length_eq_zero]
  rw [List.filter_eq_nil_iff]
  intro j hj
  simp [findFirstActive_none_spec h j (List.mem_range.mp hj)]

theorem findFirstActive_none_of_count {p : Plan} (h : activeCount p = 0) :
    findFirstActive p = none := by
  apply findFirstActive_eq_none_of
  intro j hj
  unfold activeCount at h
  rw [List.length_eq_zero, List.filter_eq_nil_iff] at h
  have := h j (List.mem_range.mpr hj)
  simpa using this

/-- A successful iteration on the selected step lowers the number of
eligible steps by exactly one. -/
theorem activeCount_successIteration {p : Plan} {i : Nat}
    (h : findFirstActive p = some i) (b1 b2 : Bool) (t1 t2 : Nat) :
    activeCount
        (markStepCompletedPlan b2 (some i)
          (if b1 then directMarkStep p i .inProgress t1
           else planningToolMarkStep p i .inProgress t1) t2) + 1 =
      activeCount p := by
  obtain ⟨hact, hlt, -⟩ := findFirstActive_spec h
  unfold activeCount
  rw [steps_successIteration]
  apply filter_range_length_update hlt hact
  · simp [isActive, statusOf_successIteration]
  · intro j hj hne
    simp [isActive, statusOf_successIteration, hne]

/-- Step selections never exceed the number of eligible steps, whatever
the oracles do (including an early `FINISHED` break). -/
theorem runStepLoop_le (mi mc fin : Nat → Bool) (clock : Nat → Nat) :
    ∀ fuel k p, (runStepLoop mi mc fin clock fuel k p).1 ≤ activeCount p := by
  intro fuel
  induction fuel with
  | zero => intro k p; simp [runStepLoop]
  | succ fuel ih =>
      intro k p
      cases hfa : findFirstActive p with
      | none => simp [runStepLoop, hfa]
      | some i =>
          have hdec :=
            activeCount_successIteration hfa (mi k) (mc k) (clock k) (clock k)
          have hle := ih (k + 1)
            (markStepCompletedPlan (mc k) (some i)
              (if mi k then directMarkStep p i .inProgress (clock k)
               else planningToolMarkStep p i .inProgress (clock k))
              (clock k))
          simp only [runStepLoop, hfa]
          by_cases hfin : fin k = true
          · simp only [hfin, if_true]
            omega
          · simp only [hfin, Bool.false_eq_true, if_false]
            omega

/-- When no executor ever reaches `FINISHED`, the loop performs exactly one
selection per eligible step and then exits with no active step left. -/
theorem runStepLoop_spec (mi mc fin : Nat → Bool) (clock : Nat → Nat)
    (hfin : ∀ k, fin k = false) :
    ∀ fuel k p, activeCount p ≤ fuel →
      (runStepLoop mi mc fin clock fuel k p).1 = activeCount p ∧
      findFirstActive (runStepLoop mi mc fin clock fuel k p).2 = none := by
  intro fuel
  induction fuel with
  | zero =>
      intro k p h
      have h0 : activeCount p = 0 := Nat.le_zero.mp h
      refine ⟨by simp [runStepLoop, h0], ?_⟩
      simpa [runStepLoop] using findFirstActive_none_of_count h0
  | succ fuel ih =>
      intro k p h
      cases hfa : findFirstActive p with
      | none =>
          have h0 := activeCount_eq_zero_of_none hfa
          refine ⟨by simp [runStepLoop, hfa, h0], ?_⟩
          simp [runStepLoop, hfa]
      | some i =>
          have hdec :=
            activeCount_successIteration hfa (mi k) (mc k) (clock k) (clock k)
          have hle2 : activeCount
              (markStepCompletedPlan (mc k) (some i)
                (if mi k then directMarkStep p i .inProgress (clock k)
                 else planningToolMarkStep p i .inProgress (clock k))
                (clock k)) ≤ fuel := by omega
          have ihh := ih (k + 1) _ hle2
          refine ⟨?_, ?_⟩
          · simp only [runStepLoop, hfa, hfin k, Bool.false_eq_true, if_false]
            rw [ihh.1]
            omega
          · simp only [runStepLoop, hfa, hfin k, Bool.false_eq_true, if_false]
            exact ihh.2

/-! ## Lemmas about tag extraction -/

theorem findTag_eq_some_iff (cs run : List Char) :
    findTag cs = some run ↔
      ∃ k, tagMatchHere (cs.drop k) = some run ∧
        ∀ j, j < k → tagMatchHere (cs.drop j) = none := by
  induction cs with
  | nil =>
      simp only [findTag, List.drop_nil]
      constructor
      · intro h; exact absurd h (by simp)
      · rintro ⟨k, hk, -⟩
        simp [tagMatchHere] at hk
  | cons c rest ih =>
      cases hm : tagMatchHere (c :: rest) with
      | some r =>
          simp only [findTag, hm]
          constructor
          · intro h
            cases h
            exact ⟨0, by simpa using hm, by omega⟩
          · rintro ⟨k, hk, hmin⟩
            cases k with
            | zero =>
                simp only [List.drop_zero] at hk
                rw [hm] at hk
                exact hk
            | succ k =>
                have := hmin 0 (Nat.succ_pos k)
                simp only [List.drop_zero] at this
                rw [hm] at this
                exact absurd this (by simp)
      | none =>
          simp only [findTag, hm]
          rw [ih]
          constructor
          · rintro ⟨k, hk, hmin⟩
            refine ⟨k + 1, by simpa using hk, ?_⟩
            intro j hj
            cases j with
            | zero => simpa using hm
            | succ j => simpa using hmin j (by omega)
          · rintro ⟨k, hk, hmin⟩
            cases k with
            | zero =>
                simp only [List.drop_zero] at hk
                rw [hm] at hk
                exact absurd hk (by simp)
            | succ k =>
                refine ⟨k, by simpa using hk, ?_⟩
                intro j hj
                simpa using hmin (j + 1) (by omega)

theorem findTag_eq_none_iff (cs : List Char) :
    findTag cs = none ↔ ∀ k, tagMatchHere (cs.drop k) = none := by
  induction cs with
  | nil => simp [findTag, tagMatchHere]
  | cons c rest ih =>
      cases hm : tagMatchHere (c :: rest) with
      | some r =>
          simp only [findTag, hm]
          constructor
          · intro h; exact absurd h (by simp)
          · intro h
            have := h 0
            simp only [List.drop_zero] at this
            rw [hm] at this
            exact absurd this (by simp)
      | none =>
          simp only [findTag, hm]
          rw [ih]
          constructor
          · intro h k
            cases k with
            | zero => simpa using hm
            | succ k => simpa using h k
          · intro h k
            simpa using h (k + 1)

/-! ## Lemmas about the research graph -/

theorem foldl_preserve {α : Type} (step : RContext → α → RContext)
    (hstep : ∀ c a, (step c a).maxDepth = c.maxDepth ∧
      c.currentDepth ≤ (step c a).currentDepth) :
    ∀ (l : List α) (c : RContext),
      (l.foldl step c).maxDepth = c.maxDepth ∧
        c.currentDepth ≤ (l.foldl step c).currentDepth := by
  intro l
  induction l with
  | nil => intro c; simp
  | cons a tl ih =>
      intro c
      simp only [List.foldl_cons]
      have h1 := hstep c a
      have h2 := ih (step c a)
      exact ⟨h2.1.trans h1.1, h1.2.trans h2.2⟩

theorem foldl_congrP {α : Type} (f g : RContext → α → RContext)
    (P : RContext → Prop)
    (hP : ∀ c a, P c → P (g c a))
    (hfg : ∀ c a, P c → f c a = g c a) :
    ∀ (l : List α) (c : RContext), P c → l.foldl f c = l.foldl g c := by
  intro l
  induction l with
  | nil => intro c _; rfl
  | cons a tl ih =>
      intro c hc
      simp only [List.foldl_cons]
      rw [hfg c a hc]
      exact ih (g c a) (hP c a hc)

/-- A research cycle never touches `max_depth` and never lowers
`current_depth`. -/
theorem researchGraphFuel_invariant (env : REnv) (deadline : Nat) :
    ∀ fuel ctx q rc,
      (researchGraphFuel env deadline fuel ctx q rc).maxDepth = ctx.maxDepth ∧
        ctx.currentDepth ≤
          (researchGraphFuel env deadline fuel ctx q rc).currentDepth := by
  intro fuel
  induction fuel with
  | zero => intro ctx q rc; simp [researchGraphFuel]
  | succ fuel ih =>
      intro ctx q rc
      by_cases hguard : deadline ≤ ctx.now ∨ ctx.maxDepth ≤ ctx.currentDepth
      · simp [researchGraphFuel, hguard]
      · simp only [researchGraphFuel]
        rw [if_neg hguard]
        split
        · simp
        · split
          · simp
          · split
            · constructor
              · rw [(foldl_preserve _
                  (fun c a => ih c a (max 1 (rc - 1))) _ _).1]
              · refine Nat.le_trans ?_
                  (foldl_preserve _ (fun c a => ih c a (max 1 (rc - 1))) _ _).2
                simp
            · simp

/-- The deadline / depth guard: a cycle entered at or past the deadline, or
with `current_depth ≥ max_depth`, does nothing at all. -/
theorem researchGraphFuel_guard (env : REnv) (deadline fuel : Nat)
    (ctx : RContext) (q : String) (rc : Nat)
    (h : deadline ≤ ctx.now ∨ ctx.maxDepth ≤ ctx.currentDepth) :
    researchGraphFuel env deadline fuel ctx q rc = ctx := by
  cases fuel with
  | zero => rfl
  | succ fuel => simp [researchGraphFuel, h]

/-- Fuel beyond `max_depth - current_depth` is never consumed: the
unbounded Python recursion reaches at most that depth. -/
theorem researchGraphFuel_fuel_irrel (env : REnv) (deadline : Nat) :
    ∀ fuel ctx q rc, ctx.maxDepth - ctx.currentDepth ≤ fuel →
      researchGraphFuel env deadline (fuel + 1) ctx q rc =
        researchGraphFuel env deadline fuel ctx q rc := by
  intro fuel
  induction fuel with
  | zero =>
      intro ctx q rc h
      have hg : ctx.maxDepth ≤ ctx.currentDepth := by omega
      rw [researchGraphFuel_guard env deadline 1 ctx q rc (Or.inr hg)]
      rfl
  | succ fuel ih =>
      intro ctx q rc h
      by_cases hguard : deadline ≤ ctx.now ∨ ctx.maxDepth ≤ ctx.currentDepth
      · rw [researchGraphFuel_guard _ _ _ _ _ _ hguard,
          researchGraphFuel_guard _ _ _ _ _ _ hguard]
      · conv_lhs => rw [researchGraphFuel]
        conv_rhs => rw [researchGraphFuel]
        rw [if_neg hguard, if_neg hguard]
        dsimp only
        split
        · rfl
        · split
          · rfl
          · split
            · refine foldl_congrP _ _
                (fun c => c.maxDepth = ctx.maxDepth ∧
                  ctx.currentDepth + 1 ≤ c.currentDepth) ?_ ?_ _ _ ?_
              · intro c a hc
                have hinv :=
                  researchGraphFuel_invariant env deadline fuel c a
                    (max 1 (rc - 1))
                exact ⟨hinv.1.trans hc.1, hc.2.trans hinv.2⟩
              · intro c a hc
                exact ih c a (max 1 (rc - 1)) (by omega)
              · constructor <;> simp
            · rfl

/-! ## Lemmas about plan creation -/

/-- Whichever path `_create_default_plan` takes, the stored plan has the
three generic steps, each `not_started`. -/
theorem lookup_createDefaultPlan (cf : Bool) (store : PlanStore)
    (pid request : String) (t : Nat) :
    ∃ q, lookupPlan (createDefaultPlan cf store pid request t) pid = some q ∧
      q.steps = defaultPlanSteps ∧ ∀ i, i < 3 → statusOf q i = .notStarted := by
  cases cf
  · refine ⟨_, lookupPlan_insertPlan_self _ _ _, rfl, ?_⟩
    intro i hi
    interval_cases i <;> rfl
  · refine ⟨_, lookupPlan_insertPlan_self _ _ _, rfl, ?_⟩
    intro i hi
    interval_cases i <;> rfl

theorem contains_createDefaultPlan (cf : Bool) (store : PlanStore)
    (pid request : String) (t : Nat) :
    containsPlanKey (createDefaultPlan cf store pid request t) pid = true := by
  obtain ⟨q, hq, -, -⟩ := lookup_createDefaultPlan cf store pid request t
  exact containsPlanKey_of_lookup hq

/-! ## Claims -/

/-- **C1**: if the planner agent's plan-creation call throws, or after it
the plan is missing or has zero steps, `_create_initial_plan` (and hence
`execute`) ends up with a plan whose steps are exactly
`["Analyze request", "Execute task", "Verify results"]`, each
`not_started` — on every combination of the failure oracles. -/
theorem createInitialPlan_default_on_failure
    (agentThrows : Bool) (agentEffect : PlanStore → PlanStore)
    (createFails : Bool) (store : PlanStore) (pid request : String) (t : Nat)
    (h : agentThrows = true ∨
      lookupPlan (agentEffect (insertPlan store pid (emptyPlanFor request t)))
          pid = none ∨
      ∃ p, lookupPlan
          (agentEffect (insertPlan store pid (emptyPlanFor request t))) pid =
            some p ∧ p.steps = []) :
    ∃ q, lookupPlan
        (createInitialPlan agentThrows agentEffect createFails store pid
          request t) pid = some q ∧
      q.steps = defaultPlanSteps ∧ ∀ i, i < 3 → statusOf q i = .notStarted := by
  unfold createInitialPlan
  by_cases hat : agentThrows = true
  · simp only [hat, if_true]
    exact lookup_createDefaultPlan _ _ _ _ _
  · have hat' : agentThrows = false := by simpa using hat
    simp only [hat', Bool.false_eq_true, if_false]
    rcases h with h | h | ⟨p, hp, hsteps⟩
    · exact absurd h hat
    · rw [h]
      exact lookup_createDefaultPlan _ _ _ _ _
    · rw [hp]
      simp only [hsteps, if_true]
      exact lookup_createDefaultPlan _ _ _ _ _

/-- Witness for C1 at a concrete input: the planner throws, the tool's
`create` succeeds. -/
theorem createInitialPlan_default_on_failure_witness :
    ∃ q, lookupPlan (createInitialPlan true id false [] "plan_0" "r" 0)
        "plan_0" = some q ∧
      q.steps = defaultPlanSteps ∧ ∀ i, i < 3 → statusOf q i = .notStarted :=
  createInitialPlan_default_on_failure true id false [] "plan_0" "r" 0
    (Or.inl rfl)

/-- **C2**: under the assumption that every selected step's execution
succeeds (each selected step gets marked `completed`), the step loop of
`execute` performs at most as many step selections as the plan has steps,
and — when no executor breaks the loop early — exactly one per eligible
step, after which it finds no active step and proceeds to finalize; in
particular the loop terminates. -/
theorem stepLoop_at_most_length_selections (mi mc fin : Nat → Bool)
    (clock : Nat → Nat) (p : Plan) :
    (runStepLoop mi mc fin clock p.steps.length 0 p).1 ≤ p.steps.length ∧
    ((∀ k, fin k = false) →
      (runStepLoop mi mc fin clock p.steps.length 0 p).1 = activeCount p ∧
      activeCount p ≤ p.steps.length ∧
      findFirstActive (runStepLoop mi mc fin clock p.steps.length 0 p).2 =
        none) := by
  have hle : activeCount p ≤ p.steps.length := by
    have := List.length_filter_le (fun i => isActive p i)
      (List.range p.steps.length)
    simpa [activeCount] using this
  refine ⟨Nat.le_trans (runStepLoop_le mi mc fin clock p.steps.length 0 p)
    hle, ?_⟩
  intro hfin
  have hspec := runStepLoop_spec mi mc fin clock hfin p.steps.length 0 p hle
  exact ⟨hspec.1, hle, hspec.2⟩

/-- Witness for C2 at a concrete two-step plan with no early finish: both
steps get selected once and the loop exits with nothing active. -/
theorem stepLoop_at_most_length_selections_witness :
    (runStepLoop (fun _ => false) (fun _ => false) (fun _ => false)
        (fun _ => 0)
        (["a", "b"] : List String).length 0
        { title := "T", description := "", steps := ["a", "b"]
        , stepStatus := [], createdAt := 0, updatedAt := 0 }).1 =
      activeCount
        { title := "T", description := "", steps := ["a", "b"]
        , stepStatus := [], createdAt := 0, updatedAt := 0 } ∧
    activeCount
        { title := "T", description := "", steps := ["a", "b"]
        , stepStatus := [], createdAt := 0, updatedAt := 0 } ≤
      (["a", "b"] : List String).length ∧
    findFirstActive
        (runStepLoop (fun _ => false) (fun _ => false) (fun _ => false)
          (fun _ => 0)
          (["a", "b"] : List String).length 0
          { title := "T", description := "", steps := ["a", "b"]
          , stepStatus := [], createdAt := 0, updatedAt := 0 }).2 = none :=
  (stepLoop_at_most_length_selections (fun _ => false) (fun _ => false)
    (fun _ => false) (fun _ => 0)
    { title := "T", description := "", steps := ["a", "b"]
    , stepStatus := [], createdAt := 0, updatedAt := 0 }).2
    (fun _ => rfl)

/-- **C3**: `_get_current_step_info` returns the lowest-index step whose
status is `not_started` or `in_progress` and marks it `in_progress` —
whether the tool's `mark_step` call succeeds or fails (direct mutation) —
and when no such step exists it returns `none` with the plan untouched, so
the flow proceeds to finalize. -/
theorem getCurrentStepInfo_selects_lowest (markFails : Bool) (p : Plan)
    (t : Nat) :
    (∀ i info, (getCurrentStepInfo markFails p t).1 = some (i, info) →
      isActive p i = true ∧ (∀ j, j < i → isActive p j = false) ∧
        statusOf (getCurrentStepInfo markFails p t).2 i = .inProgress) ∧
    ((getCurrentStepInfo markFails p t).1 = none →
      (getCurrentStepInfo markFails p t).2 = p ∧ findFirstActive p = none) := by
  unfold getCurrentStepInfo
  cases hfa : findFirstActive p with
  | none =>
      refine ⟨?_, ?_⟩
      · intro i info h
        simp at h
      · intro _
        exact ⟨rfl, rfl⟩
  | some i0 =>
      obtain ⟨hact, hlt, hmin⟩ := findFirstActive_spec hfa
      refine ⟨?_, ?_⟩
      · intro i info h
        simp only [Option.some.injEq, Prod.mk.injEq] at h
        obtain ⟨rfl, -⟩ := h
        refine ⟨hact, hmin, ?_⟩
        cases markFails <;>
          simp [directMarkStep_eq_toolMarkStep, statusOf_planningToolMarkStep]
      · intro h
        simp at h

/-- Witness for C3 at a concrete plan whose step 0 is already completed:
step 1 is selected and marked `in_progress`. -/
theorem getCurrentStepInfo_selects_lowest_witness :
    isActive
        { title := "T", description := "D", steps := ["a", "b"]
        , stepStatus := [(0, .completed)], createdAt := 0, updatedAt := 0 }
        1 = true ∧
      (∀ j, j < 1 →
        isActive
          { title := "T", description := "D", steps := ["a", "b"]
          , stepStatus := [(0, .completed)], createdAt := 0, updatedAt := 0 }
          j = false) ∧
      statusOf
          (getCurrentStepInfo false
            { title := "T", description := "D", steps := ["a", "b"]
            , stepStatus := [(0, .completed)], createdAt := 0, updatedAt := 0 }
            5).2 1 = .inProgress :=
  (getCurrentStepInfo_selects_lowest false
      { title := "T", description := "D", steps := ["a", "b"]
      , stepStatus := [(0, .completed)], createdAt := 0, updatedAt := 0 }
      5).1 1 { text := "b", type := none } rfl

/-- **C4**: every step index has a (possibly defaulted `not_started`)
status, and no flow operation — step selection, completion marking, or step
execution — ever moves a step's status away from `completed`. -/
theorem stepStatus_total_and_monotonic :
    (∀ (p : Plan) (i : Nat), lookupStatus p.stepStatus i = none →
      statusOf p i = .notStarted) ∧
    (∀ (mf : Bool) (p : Plan) (t j : Nat), statusOf p j = .completed →
      statusOf (getCurrentStepInfo mf p t).2 j = .completed) ∧
    (∀ (mf : Bool) (idx : Option Nat) (p : Plan) (t j : Nat),
      statusOf p j = .completed →
      statusOf (markStepCompletedPlan mf idx p t) j = .completed) ∧
    (∀ (res : Except String String) (mf : Bool) (i : Nat) (p : Plan) (t j : Nat),
      statusOf p j = .completed →
      statusOf (executeStep res mf i p t).2 j = .completed) := by
  have hmark : ∀ (mf : Bool) (idx : Option Nat) (p : Plan) (t j : Nat),
      statusOf p j = .completed →
      statusOf (markStepCompletedPlan mf idx p t) j = .completed := by
    intro mf idx p t j h
    cases idx with
    | none => exact h
    | some i =>
        cases mf <;>
          simp only [markStepCompletedPlan, directMarkStep_eq_toolMarkStep] <;>
          by_cases hj : j = i <;>
          simp [statusOf_planningToolMarkStep, hj, h]
  refine ⟨?_, ?_, hmark, ?_⟩
  · intro p i h
    simp [statusOf, h]
  · intro mf p t j h
    unfold getCurrentStepInfo
    cases hfa : findFirstActive p with
    | none => exact h
    | some i =>
        obtain ⟨hact, -, -⟩ := findFirstActive_spec hfa
        have hne : j ≠ i := by
          intro hji
          subst hji
          simp [isActive, h] at hact
        cases mf <;>
          simp [directMarkStep_eq_toolMarkStep, statusOf_planningToolMarkStep,
            hne, h]
  · intro res mf i p t j h
    cases res with
    | ok out => exact hmark mf (some i) p t j h
    | error e => exact h

/-- Witness for C4 at a concrete plan: completing step 1 (via the direct
fallback) leaves step 0's `completed` status untouched. -/
theorem stepStatus_total_and_monotonic_witness :
    statusOf
        (markStepCompletedPlan true (some 1)
          { title := "T", description := "", steps := ["a", "b"]
          , stepStatus := [(0, .completed)], createdAt := 0, updatedAt := 0 }
          9) 0 = .completed :=
  stepStatus_total_and_monotonic.2.2.1 true (some 1)
    { title := "T", description := "", steps := ["a", "b"]
    , stepStatus := [(0, .completed)], createdAt := 0, updatedAt := 0 }
    9 0 (by decide)

/-- **C5**: when the executor's `run` raises, `_execute_step` leaves the
plan untouched, returns the error-annotated result string, and `execute`'s
loop goes round again rather than halting (for an executor not in
`FINISHED` state); when `run` succeeds, the step is marked `completed`
under both marking paths and the run output is returned. -/
theorem executeStep_error_behavior :
    (∀ (e : String) (mf : Bool) (i : Nat) (p : Plan) (t : Nat),
      executeStep (.error e) mf i p t =
        ("Error executing step " ++ toString i ++ ": " ++ e, p)) ∧
    (∀ (out : String) (mf : Bool) (i : Nat) (p : Plan) (t : Nat),
      statusOf (executeStep (.ok out) mf i p t).2 i = .completed ∧
        (executeStep (.ok out) mf i p t).1 = out) ∧
    (∀ (selMf : Bool) (e : String) (complMf : Bool) (p : Plan) (t i : Nat)
        (info : StepInfo),
      (getCurrentStepInfo selMf p t).1 = some (i, info) →
      (loopBody selMf (.error e) complMf false p t).1 = .continueLoop) := by
  refine ⟨fun e mf i p t => rfl, ?_, ?_⟩
  · intro out mf i p t
    refine ⟨?_, rfl⟩
    cases mf <;>
      simp [executeStep, markStepCompletedPlan, directMarkStep_eq_toolMarkStep,
        statusOf_planningToolMarkStep]
  · intro selMf e complMf p t i info h
    unfold loopBody
    cases hsel : getCurrentStepInfo selMf p t with
    | mk fst snd =>
        rw [hsel] at h
        cases fst with
        | none => simp at h
        | some x => rfl

/-- Witness for C5 at a concrete plan: a raised step execution leaves the
loop continuing. -/
theorem executeStep_error_behavior_witness :
    (loopBody false (Except.error "boom") false false
        { title := "T", description := "D", steps := ["a", "b"]
        , stepStatus := [(0, .completed)], createdAt := 0, updatedAt := 0 }
        7).1 = .continueLoop :=
  executeStep_error_behavior.2.2 false "boom" false
    { title := "T", description := "D", steps := ["a", "b"]
    , stepStatus := [(0, .completed)], createdAt := 0, updatedAt := 0 }
    7 1 { text := "b", type := none } rfl

/-- **C6**: with no agents configured, `execute`'s guard raises
`ValueError("No primary agent available")`, which the `except` wrapper
catches, returning the labelled failure string to the caller instead of
propagating. -/
theorem execute_no_primary_agent (cfg : FlowConfig) (body : String)
    (h : cfg.agentKeys = []) :
    executeRaw cfg body = Except.error "No primary agent available" ∧
    executeFlow cfg body = "Execution failed: No primary agent available" := by
  have hpa : primaryAgent cfg = none := by
    unfold primaryAgent primaryAgentKey
    cases hk : cfg.primaryKeyArg with
    | none => simp [h]
    | some k => by_cases hke : k = "" <;> simp [h, hke]
  constructor
  · simp [executeRaw, hpa]
  · simp [executeFlow, executeRaw, hpa]

/-- Witness for C6 at a concrete agentless flow configuration. -/
theorem execute_no_primary_agent_witness :
    executeFlow
        { agentKeys := [], primaryKeyArg := none, executorKeys := [] }
        "rest" = "Execution failed: No primary agent available" :=
  (execute_no_primary_agent
    { agentKeys := [], primaryKeyArg := none, executorKeys := [] }
    "rest" rfl).2

/-- **C7** counterexample: the source uses `re.search`, which finds a
bracketed tag *anywhere* in the step text, not only at the start — on
`"Use [CODE] later"` the code extracts the hint `"code"` although no tag
stands at the start of the text, refuting the claim as stated. -/
theorem stepType_not_at_start_counterexample :
    stepTypeOf "Use [CODE] later" = some "code" ∧
    stepTypeAtStartSpec "Use [CODE] later" = none := by
  constructor <;> rfl

/-- **C7** (amended): the `step_type` hint is the *first* bracketed
uppercase tag found anywhere in the step text, lowercased (leftmost-match
characterization of `re.search`); executor selection is: a registered
`step_type` key selects that agent, otherwise the first configured executor
key registered among the agents, otherwise the primary agent. -/
theorem stepType_and_executor_selection :
    (∀ (text ty : String),
      stepTypeOf text = some ty ↔
        ∃ k run, tagMatchHere (text.toList.drop k) = some run ∧
          (∀ j, j < k → tagMatchHere (text.toList.drop j) = none) ∧
          ty = lowerTag run) ∧
    (∀ text : String,
      stepTypeOf text = none ↔
        ∀ k, tagMatchHere (text.toList.drop k) = none) ∧
    (∀ (cfg : FlowConfig) (ty : String), ty ≠ "" → ty ∈ cfg.agentKeys →
      getExecutor cfg (some ty) = some ty) ∧
    (∀ (cfg : FlowConfig) (ty : String), ty ∉ cfg.agentKeys →
      getExecutor cfg (some ty) = defaultExecutor cfg) ∧
    (∀ cfg : FlowConfig, getExecutor cfg none = defaultExecutor cfg) ∧
    (∀ (cfg : FlowConfig) (k : String),
      List.find? (fun a => decide (a ∈ cfg.agentKeys)) cfg.executorKeys =
          some k →
      defaultExecutor cfg = some k) ∧
    (∀ cfg : FlowConfig,
      List.find? (fun a => decide (a ∈ cfg.agentKeys)) cfg.executorKeys =
          none →
      defaultExecutor cfg = primaryAgent cfg) := by
  refine ⟨?_, ?_, ?_, ?_, ?_, ?_, ?_⟩
  · intro text ty
    unfold stepTypeOf
    rw [Option.map_eq_some']
    constructor
    · rintro ⟨run, hrun, rfl⟩
      obtain ⟨k, hk, hmin⟩ := (findTag_eq_some_iff _ _).mp hrun
      exact ⟨k, run, hk, hmin, rfl⟩
    · rintro ⟨k, run, hk, hmin, rfl⟩
      exact ⟨run, (findTag_eq_some_iff _ _).mpr ⟨k, hk, hmin⟩, rfl⟩
  · intro text
    unfold stepTypeOf
    rw [Option.map_eq_none']
    exact findTag_eq_none_iff _
  · intro cfg ty hne hmem
    simp [getExecutor, hne, hmem]
  · intro cfg ty hmem
    simp [getExecutor, hmem]
  · intro cfg
    rfl
  · intro cfg k h
    simp [defaultExecutor, h]
  · intro cfg h
    simp [defaultExecutor, h]

/-- Witness for C7 at concrete inputs: `"[SEARCH] x"` parses to `"search"`
and a registered key selects that agent. -/
theorem stepType_and_executor_selection_witness :
    getExecutor
        { agentKeys := ["default", "search"], primaryKeyArg := none
        , executorKeys := ["default"] } (some "search") = some "search" :=
  stepType_and_executor_selection.2.2.1
    { agentKeys := ["default", "search"], primaryKeyArg := none
    , executorKeys := ["default"] } "search" (by decide) (by simp)

/-- **C8**: plan-text rendering from storage is a pure function of the
plan's stored `title`, `description`, `steps` and `step_status` — two plans
agreeing on those render to character-identical text (glyphs and progress
line included) even when `created_at` / `updated_at` differ, so rendering
the same unmutated plan twice is idempotent. -/
theorem renderPlanFromStorage_pure (pid title desc : String)
    (steps : List String) (st : StatusMap) (c1 u1 c2 u2 : Nat) :
    renderPlanFromStorage pid
        { title := title, description := desc, steps := steps
        , stepStatus := st, createdAt := c1, updatedAt := u1 } =
      renderPlanFromStorage pid
        { title := title, description := desc, steps := steps
        , stepStatus := st, createdAt := c2, updatedAt := u2 } := rfl

/-- **C9**: the deep-research fan-out is bounded — `max_depth` is clamped
into `[1, 5]`, each cycle dispatches at most 2 follow-up children, a cycle
entered at or past the deadline or at `current_depth ≥ max_depth` performs
no search and returns the context untouched, and fuel beyond
`max_depth - current_depth` is never consumed, so the recursion reaches
only a bounded depth rather than recursing unboundedly. -/
theorem deepResearch_bounded (env : REnv) :
    (∀ md : Nat, 1 ≤ normalizeMaxDepth md ∧ normalizeMaxDepth md ≤ 5) ∧
    (∀ (fus : List String) (now dl : Nat),
      (dispatchList fus now dl).length ≤ 2) ∧
    (∀ (fuel dl : Nat) (ctx : RContext) (q : String) (rc : Nat),
      dl ≤ ctx.now ∨ ctx.maxDepth ≤ ctx.currentDepth →
      researchGraphFuel env dl fuel ctx q rc = ctx) ∧
    (∀ (fuel dl : Nat) (ctx : RContext) (q : String) (rc : Nat),
      ctx.maxDepth - ctx.currentDepth ≤ fuel →
      researchGraphFuel env dl (fuel + 1) ctx q rc =
        researchGraphFuel env dl fuel ctx q rc) := by
  refine ⟨?_, ?_, ?_, ?_⟩
  · intro md
    unfold normalizeMaxDepth
    omega
  · intro fus now dl
    unfold dispatchList
    split
    · simp
    · simp [List.length_take]
  · intro fuel dl ctx q rc h
    exact researchGraphFuel_guard env dl fuel ctx q rc h
  · intro fuel dl ctx q rc h
    exact researchGraphFuel_fuel_irrel env dl fuel ctx q rc h

/-- Witness for C9 at a concrete environment and context already at its
maximum depth: the cycle does nothing. -/
theorem deepResearch_bounded_witness :
    researchGraphFuel
        { optimizeQuery := fun q => q, searchResults := fun _ _ => []
        , newInsights := fun _ => [], followUps := fun _ => []
        , searchElapsed := fun _ => 0, extractElapsed := fun _ => 0
        , followElapsed := fun _ => 0 } 9 3
        { query := "q", insights := [], followUpQueries := []
        , visitedUrls := [], currentDepth := 2, maxDepth := 2, now := 0 }
        "q" 1 =
      { query := "q", insights := [], followUpQueries := []
      , visitedUrls := [], currentDepth := 2, maxDepth := 2, now := 0 } :=
  (deepResearch_bounded
    { optimizeQuery := fun q => q, searchResults := fun _ _ => []
    , newInsights := fun _ => [], followUps := fun _ => []
    , searchElapsed := fun _ => 0, extractElapsed := fun _ => 0
    , followElapsed := fun _ => 0 }).2.2.1 3 9
    { query := "q", insights := [], followUpQueries := []
    , visitedUrls := [], currentDepth := 2, maxDepth := 2, now := 0 }
    "q" 1 (Or.inr (by decide))

/-- **C10**: `_create_initial_plan` writes an entry for the active plan id
into the store before the planner agent runs, and whatever the agent and
the fallback paths do, the returned store always contains the active plan
id — so `execute`'s "Failed to create plan" early-return branch is
unreachable. -/
theorem createInitialPlan_plan_always_present
    (agentThrows : Bool) (agentEffect : PlanStore → PlanStore)
    (createFails : Bool) (store : PlanStore) (pid request : String) (t : Nat) :
    lookupPlan (insertPlan store pid (emptyPlanFor request t)) pid =
      some (emptyPlanFor request t) ∧
    containsPlanKey
        (createInitialPlan agentThrows agentEffect createFails store pid
          request t) pid = true := by
  refine ⟨lookupPlan_insertPlan_self _ _ _, ?_⟩
  unfold createInitialPlan
  by_cases hat : agentThrows = true
  · simp only [hat, if_true]
    exact contains_createDefaultPlan _ _ _ _ _
  · have hat' : agentThrows = false := by simpa using hat
    simp only [hat', Bool.false_eq_true, if_false]
    cases hlk : lookupPlan
        (agentEffect (insertPlan store pid (emptyPlanFor request t))) pid with
    | none => exact contains_createDefaultPlan _ _ _ _ _
    | some p =>
        by_cases hs : p.steps = []
        · simp only [hs, if_true]
          exact contains_createDefaultPlan _ _ _ _ _
        · simp only [hs, if_false]
          exact containsPlanKey_of_lookup hlk

end OpenManus
